import Mathlib

/-!
Shallow embedding of the `@mxbe/database` collection store (`src/index.ts`).

Modelling decisions, each traceable to the source:

* A record (`T` in the TypeScript generic) is modelled as a JS-style object:
  an association list from field names to dynamic `Value`s.  `getField` is JS
  property access (`data[key]`, missing property gives `undefined`).
* The in-memory `Map<string, T>` is modelled as an insertion-ordered
  association list with the semantics of JS `Map`: `set` on a present key
  replaces the value in place, `set` on an absent key appends, `delete`
  removes the entry and keeps the order of the rest.
* `Math.random()`-based id generation is modelled by passing the stream of
  candidate ids a call would draw (`cands : Nat → String`); the source's
  retry loop inspects at most 100 candidates and fails with `DUPLICATE_KEY`
  when all of them collide.
* The persisted blob is kept in parsed form (`Blob`): `JSON.stringify` /
  `JSON.parse` are inverse on the JSON-compatible values stored here, so the
  round-trip through the string is modelled as the identity on the entry
  list.  The storage slot of the host object is the `storage` field of `DB`.
* A thrown `DatabaseError` is modelled with `Except`; since a caught throw
  leaves `this.data` in whatever state the method mutated it to, every
  mutating operation returns the resulting state next to the `Except`.
* The host `setDynamicProperty` write can itself throw, which `saveChanges`
  wraps as `STORAGE_WRITE_ERROR`.  The plain operations model runs in which
  every write succeeds; the `...W` variants of the four batch operations
  additionally thread the outcome of each write attempt (`wr : Nat → Bool`)
  to expose the failure path where the failure-time state matters, and
  coincide with the plain operations when every write succeeds.
-/

namespace MxbeDb

/-- Dynamic (JSON-ish) value of a record field. -/
inductive Value where
  | vNum : Int → Value
  | vStr : String → Value
  | vBool : Bool → Value
  | vUndef : Value
deriving DecidableEq, Repr

/-- A record: a JS object, field names mapped to values in declaration order. -/
abbrev Rec := List (String × Value)

/-- JS property access `data[key]`: first matching field, else `undefined`. -/
def getField (data : Rec) (k : String) : Value :=
  match data with
  | [] => .vUndef
  | kv :: rest => if kv.1 = k then kv.2 else getField rest k

/-- Whether the object declares the field at all. -/
def hasField (data : Rec) (k : String) : Bool :=
  match data with
  | [] => false
  | kv :: rest => kv.1 = k || hasField rest k

/-- One entry of `CollectionValidator<T>`: a field name and its predicate. -/
abbrev FieldValidator := Value → Bool

/-- `CollectionValidator<T>`: per-field predicates, in `Object.entries` order. -/
abbrev CollectionValidator := List (String × FieldValidator)

/-- The `DatabaseErrorType` union of `errors.ts`. -/
inductive DatabaseErrorType where
  | VALIDATION_FAILED
  | INVALID_COLLECTION_NAME
  | STORAGE_READ_ERROR
  | STORAGE_WRITE_ERROR
  | SERIALIZATION_ERROR
  | DOCUMENT_NOT_FOUND
  | DUPLICATE_KEY
  | INVALID_UPDATE
  | INVALID_QUERY
  | INITIALIZATION_ERROR
  | IMPORT_ERROR
  | EXPORT_ERROR
  | UNKNOWN_ERROR
deriving DecidableEq, Repr

/-- A `DatabaseError`: its discriminating tag, and (for validation failures)
the field names listed in its `validationErrors` detail payload. -/
structure DatabaseError where
  type : DatabaseErrorType
  failingFields : List String
deriving DecidableEq, Repr

/-- The fields collected into `validationErrors` by `validate`: every declared
field whose predicate rejects the candidate record's value. -/
def validationFailures (vs : CollectionValidator) (data : Rec) : List String :=
  (vs.filter (fun kv => !(kv.2 (getField data kv.1)))).map (fun kv => kv.1)

/-- `validate`: with no configured validators accept everything; otherwise
collect all failing fields and throw `VALIDATION_FAILED` listing them, or
return successfully when none fail. -/
def validate (vals : Option CollectionValidator) (data : Rec) : Except DatabaseError Unit :=
  match vals with
  | none => .ok ()
  | some vs =>
    let errs := validationFailures vs data
    if errs.isEmpty then .ok () else .error ⟨.VALIDATION_FAILED, errs⟩

/-- JS `Map.set`: replace in place when the key is present, else append. -/
def mapSet (m : List (String × Rec)) (k : String) (v : Rec) : List (String × Rec) :=
  match m with
  | [] => [(k, v)]
  | kv :: rest => if kv.1 = k then (k, v) :: rest else kv :: mapSet rest k v

/-- JS `Map.get`. -/
def mapGet (m : List (String × Rec)) (k : String) : Option Rec :=
  match m with
  | [] => none
  | kv :: rest => if kv.1 = k then some kv.2 else mapGet rest k

/-- JS `Map.has`. -/
def mapHas (m : List (String × Rec)) (k : String) : Bool :=
  match m with
  | [] => false
  | kv :: rest => kv.1 = k || mapHas rest k

/-- JS `Map.delete`: drop the entry, keep the order of the others. -/
def mapDelete (m : List (String × Rec)) (k : String) : List (String × Rec) :=
  m.filter (fun kv => !(kv.1 = k))

/-- The parsed form of the serialized blob: the `[id, record]` entry list. -/
abbrev Blob := List (String × Rec)

/-- The store: the in-memory map plus the host storage slot's parsed content
(`none` when the dynamic property is unset). -/
structure DB where
  data : List (String × Rec)
  storage : Option Blob
deriving DecidableEq, Repr

/-- `saveChanges`: serialize the whole entry list into the storage slot. -/
def saveChanges (data : List (String × Rec)) : Option Blob :=
  some data

/-- `generateId`: the first of the call's first 100 random candidates that is
not already a key of the map; `DUPLICATE_KEY` when all 100 collide. -/
def generateId (data : List (String × Rec)) (cands : Nat → String) :
    Except DatabaseError String :=
  match (List.range 100).find? (fun i => !(mapHas data (cands i))) with
  | some i => .ok (cands i)
  | none => .error ⟨.DUPLICATE_KEY, []⟩

/-- `create`: validate, generate an id, insert, persist, return the id; on a
thrown error the map is left as it was. -/
def create (vals : Option CollectionValidator) (cands : Nat → String) (db : DB)
    (record : Rec) : Except DatabaseError String × DB :=
  match validate vals record with
  | .error e => (.error e, db)
  | .ok _ =>
    match generateId db.data cands with
    | .error e => (.error e, db)
    | .ok id =>
      let d := mapSet db.data id record
      (.ok id, ⟨d, saveChanges d⟩)

/-- `findById`: exact lookup, `DOCUMENT_NOT_FOUND` when absent. -/
def findById (db : DB) (id : String) : Except DatabaseError (String × Rec) :=
  match mapGet db.data id with
  | some data => .ok (id, data)
  | none => .error ⟨.DOCUMENT_NOT_FOUND, []⟩

/-- `clear`: empty the map and persist the empty state. -/
def clear (_db : DB) : DB :=
  ⟨[], saveChanges []⟩

/-- The validate-all-items-first loop of `createMany`: the first failing item
makes the whole call throw a wrapped `VALIDATION_FAILED` carrying the index. -/
def validateAll (vals : Option CollectionValidator) : List Rec → Option DatabaseError
  | [] => none
  | item :: rest =>
    match validate vals item with
    | .error e => some ⟨.VALIDATION_FAILED, e.failingFields⟩
    | .ok _ => validateAll vals rest

/-- The insertion loop of `createMany`: generate an id and `set` each item in
turn.  A `DUPLICATE_KEY` failure aborts the loop but the items already set
stay in the map (the source has no rollback here).  `callIdx` numbers the
`generateId` calls into the candidate streams. -/
def createManyLoop (cands : Nat → Nat → String) (callIdx : Nat)
    (data : List (String × Rec)) :
    List Rec → Except DatabaseError (List String) × List (String × Rec)
  | [] => (.ok [], data)
  | item :: rest =>
    match generateId data (cands callIdx) with
    | .error e => (.error e, data)
    | .ok id =>
      match createManyLoop cands (callIdx + 1) (mapSet data id item) rest with
      | (.ok ids, d) => (.ok (id :: ids), d)
      | (.error e, d) => (.error e, d)

/-- `createMany`: validate all items first (no mutation), then insert each
with a fresh id, then persist once.  A validation failure leaves the store
untouched; a post-validation failure keeps the partial inserts in memory and
skips the persist. -/
def createMany (vals : Option CollectionValidator) (cands : Nat → Nat → String)
    (db : DB) (items : List Rec) : Except DatabaseError (List String) × DB :=
  match validateAll vals items with
  | some e => (.error e, db)
  | none =>
    match createManyLoop cands 0 db.data items with
    | (.ok ids, d) => (.ok ids, ⟨d, saveChanges d⟩)
    | (.error e, d) => (.error e, ⟨d, db.storage⟩)

/-- One field of the spread target: keep the key, take `b`'s value when `b`
declares the key. -/
def spreadOverride (b : Rec) (kv : String × Value) : String × Value :=
  match b.find? (fun kw => kw.1 = kv.1) with
  | some kw => (kv.1, kw.2)
  | none => kv

/-- JS object spread of `b` over `a`: keys of `a` in order with `b`'s
values where `b` declares the key, then `b`'s remaining keys appended. -/
def merge (a b : Rec) : Rec :=
  a.map (spreadOverride b) ++
    b.filter (fun kw => !(a.any (fun kv => kv.1 = kw.1)))

/-- `update`: `DOCUMENT_NOT_FOUND` on an absent id; otherwise merge the
partial record over the existing one, validate the merge, set and persist;
a validation failure leaves the store unchanged. -/
def update (vals : Option CollectionValidator) (db : DB) (id : String)
    (patch : Rec) : Except DatabaseError Unit × DB :=
  match mapGet db.data id with
  | none => (.error ⟨.DOCUMENT_NOT_FOUND, []⟩, db)
  | some existing =>
    let updated := merge existing patch
    match validate vals updated with
    | .error e => (.error e, db)
    | .ok _ =>
      let d := mapSet db.data id updated
      (.ok (), ⟨d, saveChanges d⟩)

/-- The validate-all-updates-first loop of `updateMany`: each target id must
be present and each merge over the (still unmutated) map must validate. -/
def updateManyValidate (vals : Option CollectionValidator)
    (data : List (String × Rec)) : List (String × Rec) → Option DatabaseError
  | [] => none
  | (id, patch) :: rest =>
    match mapGet data id with
    | none => some ⟨.DOCUMENT_NOT_FOUND, []⟩
    | some existing =>
      match validate vals (merge existing patch) with
      | .error e => some ⟨.VALIDATION_FAILED, e.failingFields⟩
      | .ok _ => updateManyValidate vals data rest

/-- The apply loop of `updateMany`: re-fetch each target from the evolving
map (`this.data.get(id)!`) and set the merge. -/
def updateManyApply (data : List (String × Rec)) :
    List (String × Rec) → List (String × Rec)
  | [] => data
  | (id, patch) :: rest =>
    let existing := (mapGet data id).getD []
    updateManyApply (mapSet data id (merge existing patch)) rest

/-- `updateMany`: snapshot, validate every update first, then apply all and
persist; on any error roll the map back to the snapshot. -/
def updateMany (vals : Option CollectionValidator) (db : DB)
    (updates : List (String × Rec)) : Except DatabaseError Unit × DB :=
  match updateManyValidate vals db.data updates with
  | some e => (.error e, db)
  | none =>
    let d := updateManyApply db.data updates
    (.ok (), ⟨d, saveChanges d⟩)

/-- `delete`: `DOCUMENT_NOT_FOUND` on an absent id, else remove and persist. -/
def delete (db : DB) (id : String) : Except DatabaseError Unit × DB :=
  if mapHas db.data id then
    let d := mapDelete db.data id
    (.ok (), ⟨d, saveChanges d⟩)
  else
    (.error ⟨.DOCUMENT_NOT_FOUND, []⟩, db)

/-- `deleteMany`: verify every id is present first, then delete all and
persist once; on any error roll back to the snapshot. -/
def deleteMany (db : DB) (ids : List String) : Except DatabaseError Unit × DB :=
  match ids.find? (fun id => !(mapHas db.data id)) with
  | some _ => (.error ⟨.DOCUMENT_NOT_FOUND, []⟩, db)
  | none =>
    let d := ids.foldl mapDelete db.data
    (.ok (), ⟨d, saveChanges d⟩)

/-- `export`: serialize the full entry list (kept in parsed form here). -/
def dbExport (db : DB) : Blob :=
  db.data

/-- `import`: keep the entries whose record validates without throwing; if
any entry was dropped, throw `VALIDATION_FAILED` without mutating; otherwise
`clear()` and re-`set` every kept entry in order, then persist. -/
def dbImport (vals : Option CollectionValidator) (db : DB) (entries : Blob) :
    Except DatabaseError Unit × DB :=
  let validEntries := entries.filter (fun kv => (validate vals kv.2).isOk)
  if validEntries.length ≠ entries.length then
    (.error ⟨.VALIDATION_FAILED, []⟩, db)
  else
    let d := validEntries.foldl (fun m kv => mapSet m kv.1 kv.2) []
    (.ok (), ⟨d, saveChanges d⟩)

/-- `saveChanges` with the host write's outcome made explicit: the host
`setDynamicProperty` call can itself throw, which `saveChanges` wraps as
`STORAGE_WRITE_ERROR`; `wr i` is the outcome of the operation's `i`-th write
attempt.  A failed write stores nothing, so the caller keeps the old slot
content.  The plain operations above model the all-writes-succeed runs; the
`...W` variants below thread `wr` through the operations whose failure-time
state C4 is about. -/
def saveChangesW (wr : Nat → Bool) (i : Nat) (data : List (String × Rec)) :
    Except DatabaseError (Option Blob) :=
  if wr i then .ok (some data) else .error ⟨.STORAGE_WRITE_ERROR, []⟩

/-- `createMany` with explicit write outcomes.  Its catch block has no
rollback, so both a `DUPLICATE_KEY` mid-loop and a failed final write leave
the inserted records in the map while the slot keeps its old content. -/
def createManyW (vals : Option CollectionValidator) (cands : Nat → Nat → String)
    (wr : Nat → Bool) (db : DB) (items : List Rec) :
    Except DatabaseError (List String) × DB :=
  match validateAll vals items with
  | some e => (.error e, db)
  | none =>
    match createManyLoop cands 0 db.data items with
    | (.ok ids, d) =>
      match saveChangesW wr 0 d with
      | .ok st => (.ok ids, ⟨d, st⟩)
      | .error e => (.error e, ⟨d, db.storage⟩)
    | (.error e, d) => (.error e, ⟨d, db.storage⟩)

/-- `updateMany` with explicit write outcomes.  Its catch block restores the
snapshot (`this.data = originalData`), also when the single write throws. -/
def updateManyW (vals : Option CollectionValidator) (wr : Nat → Bool) (db : DB)
    (updates : List (String × Rec)) : Except DatabaseError Unit × DB :=
  match updateManyValidate vals db.data updates with
  | some e => (.error e, db)
  | none =>
    match saveChangesW wr 0 (updateManyApply db.data updates) with
    | .ok st => (.ok (), ⟨updateManyApply db.data updates, st⟩)
    | .error e => (.error e, db)

/-- `deleteMany` with explicit write outcomes; like `updateMany` it restores
the snapshot in its catch block, also when the write throws. -/
def deleteManyW (wr : Nat → Bool) (db : DB) (ids : List String) :
    Except DatabaseError Unit × DB :=
  match ids.find? (fun id => !(mapHas db.data id)) with
  | some _ => (.error ⟨.DOCUMENT_NOT_FOUND, []⟩, db)
  | none =>
    match saveChangesW wr 0 (ids.foldl mapDelete db.data) with
    | .ok st => (.ok (), ⟨ids.foldl mapDelete db.data, st⟩)
    | .error e => (.error e, db)

/-- `import` with explicit write outcomes.  After the pre-mutation length
check it calls `clear()` — which empties the map and then persists (write 0)
— then re-`set`s the entries and persists again (write 1); its catch block
re-throws without any rollback, so a failed write 0 leaves the map emptied
and a failed write 1 leaves the replaced map, with the slot holding whatever
was last successfully written. -/
def dbImportW (vals : Option CollectionValidator) (wr : Nat → Bool) (db : DB)
    (entries : Blob) : Except DatabaseError Unit × DB :=
  if (entries.filter (fun kv => (validate vals kv.2).isOk)).length ≠
      entries.length then
    (.error ⟨.VALIDATION_FAILED, []⟩, db)
  else
    match saveChangesW wr 0 [] with
    | .error e => (.error e, ⟨[], db.storage⟩)
    | .ok st0 =>
      match saveChangesW wr 1
          ((entries.filter (fun kv => (validate vals kv.2).isOk)).foldl
            (fun m kv => mapSet m kv.1 kv.2) []) with
      | .error e =>
        (.error e,
          ⟨(entries.filter (fun kv => (validate vals kv.2).isOk)).foldl
            (fun m kv => mapSet m kv.1 kv.2) [], st0⟩)
      | .ok st1 =>
        (.ok (),
          ⟨(entries.filter (fun kv => (validate vals kv.2).isOk)).foldl
            (fun m kv => mapSet m kv.1 kv.2) [], st1⟩)

/-- The entry-loading loop of `initialize`: validate each parsed entry and
`set` it; the first invalid entry aborts with the `VALIDATION_FAILED` thrown
by `validate` (a `DatabaseError`, re-thrown unwrapped). -/
def initLoop (vals : Option CollectionValidator) (data : List (String × Rec)) :
    Blob → Except DatabaseError (List (String × Rec))
  | [] => .ok data
  | (id, record) :: rest =>
    match validate vals record with
    | .error e => .error e
    | .ok _ => initLoop vals (mapSet data id record) rest

/-- The private initialization step of the constructor: an unset slot leaves
the map empty; otherwise parse the blob and load every entry, aborting on
the first invalid one. -/
def initStore (vals : Option CollectionValidator) (stored : Option Blob) :
    Except DatabaseError (List (String × Rec)) :=
  match stored with
  | none => .ok []
  | some entries => initLoop vals [] entries

/-- The constructor: reject a collection name outside 1–16 characters, then
run the initialization step over the stored blob; any error aborts
construction, so no store object is observable. -/
def construct (collectionName : String) (vals : Option CollectionValidator)
    (stored : Option Blob) : Except DatabaseError DB :=
  if collectionName.length < 1 ∨ collectionName.length > 16 then
    .error ⟨.INVALID_COLLECTION_NAME, []⟩
  else
    match initStore vals stored with
    | .error e => .error e
    | .ok d => .ok ⟨d, stored⟩

/-- JS `String(value)` for the values modelled here. -/
def valueToString : Value → String
  | .vNum n => toString n
  | .vStr s => s
  | .vBool b => if b then "true" else "false"
  | .vUndef => "undefined"

/-- JS `a < b` restricted to operands of one type (numbers compare
numerically, strings lexicographically); the source's dynamic coercions
between types are outside the claims and modelled as not-less-than. -/
def jsLt : Value → Value → Bool
  | .vNum a, .vNum b => a < b
  | .vStr a, .vStr b => a < b
  | _, _ => false

/-- JS `a <= b`, same restriction as `jsLt`. -/
def jsLe : Value → Value → Bool
  | .vNum a, .vNum b => a ≤ b
  | .vStr a, .vStr b => a ≤ b
  | _, _ => false

/-- `pat` is an initial run of `s` (character lists). -/
def listStartsWith : List Char → List Char → Bool
  | _, [] => true
  | [], _ :: _ => false
  | a :: as, b :: bs => a = b && listStartsWith as bs

/-- `pat` occurs contiguously somewhere in `s` (character lists). -/
def listContainsSeq : List Char → List Char → Bool
  | [], pat => pat.isEmpty
  | a :: as, pat => listStartsWith (a :: as) pat || listContainsSeq as pat

/-- The `FilterOperator` union. -/
inductive FilterOperator where
  | opEq | opNe | opGt | opLt | opGe | opLe
  | opContains | opStartsWith | opEndsWith
deriving DecidableEq, Repr

/-- A `FilterCondition<T>`. -/
structure FilterCondition where
  field : String
  operator : FilterOperator
  value : Value
deriving DecidableEq, Repr

/-- `evaluateCondition`: dispatch on the operator; ordering operators use the
values' natural order, the three string operators compare the lowercased
string forms.  The TS `default` branch is unreachable because the operator
union is exhaustive. -/
def evaluateCondition (data : Rec) (c : FilterCondition) : Bool :=
  let value := getField data c.field
  let conditionValue := c.value
  match c.operator with
  | .opEq => value = conditionValue
  | .opNe => value ≠ conditionValue
  | .opGt => jsLt conditionValue value
  | .opLt => jsLt value conditionValue
  | .opGe => jsLe conditionValue value
  | .opLe => jsLe value conditionValue
  | .opContains =>
      listContainsSeq (valueToString value).toLower.data
        (valueToString conditionValue).toLower.data
  | .opStartsWith =>
      listStartsWith (valueToString value).toLower.data
        (valueToString conditionValue).toLower.data
  | .opEndsWith =>
      listStartsWith (valueToString value).toLower.data.reverse
        (valueToString conditionValue).toLower.data.reverse

/-- A `SortDirection`. -/
inductive SortDirection where
  | asc | desc
deriving DecidableEq, Repr

/-- `SortOptions<T>` as `Object.entries` sees them: ordered sort keys. -/
abbrev SortOptions := List (String × SortDirection)

/-- The comparator closure passed to `Array.sort`: walk the sort keys in
order, skip keys on which the rows agree, and orient the first difference by
the key's direction. -/
def sortCompare (sortEntries : SortOptions) (a b : Rec) : Int :=
  match sortEntries with
  | [] => 0
  | (field, direction) :: rest =>
    let aVal := getField a field
    let bVal := getField b field
    if aVal = bVal then sortCompare rest a b
    else
      let comparison : Int := if jsLt aVal bVal then -1 else 1
      match direction with
      | .asc => comparison
      | .desc => -comparison

/-- Insert into an already sorted list, before the first element the
comparator does not place strictly after `x` — the stable position. -/
def insertSorted (cmp : α → α → Int) (x : α) : List α → List α
  | [] => [x]
  | y :: ys => if cmp x y ≤ 0 then x :: y :: ys else y :: insertSorted cmp x ys

/-- JS `Array.sort` with a comparator, which is stable (ES2019): modelled as
stable insertion sort. -/
def stableSort (cmp : α → α → Int) : List α → List α
  | [] => []
  | x :: xs => insertSorted cmp x (stableSort cmp xs)

/-- `query`: conjunctive filter over the entry list, optional multi-key sort,
then the optional limit, which must be non-negative. -/
def query (db : DB) (conditions : List FilterCondition) (sort : Option SortOptions)
    (limit : Option Int) : Except DatabaseError (List (String × Rec)) :=
  let results := db.data.filter
    (fun kv => conditions.all (fun c => evaluateCondition kv.2 c))
  let sorted := match sort with
    | none => results
    | some s => stableSort (fun a b => sortCompare s a.2 b.2) results
  match limit with
  | none => .ok sorted
  | some l =>
    if l < 0 then .error ⟨.INVALID_QUERY, []⟩
    else .ok (sorted.take l.toNat)

/-! ### Concrete stores used to instantiate the hypotheses of the theorems -/

/-- A validator set in the shape of the README example: positive age. -/
def valsW : Option CollectionValidator :=
  some [("age", fun v => match v with | .vNum n => decide (0 < n) | _ => false)]

/-- A record accepted by `valsW`. -/
def recW : Rec := [("age", .vNum 30), ("name", .vStr "John Doe")]

/-- A candidate-id stream that immediately yields a fresh id. -/
def candsW : Nat → String := fun _ => "0123456789abcdef"

/-- A fresh empty store. -/
def dbW : DB := ⟨[], none⟩

/-- The four-record ages store of the spec's query example. -/
def ageDb : DB :=
  ⟨[("id1", [("age", .vNum 17)]),
    ("id2", [("age", .vNum 20)]),
    ("id3", [("age", .vNum 30)]),
    ("id4", [("age", .vNum 25)])], none⟩

instance {ε α : Type _} [DecidableEq ε] [DecidableEq α] :
    DecidableEq (Except ε α) := fun a b =>
  match a, b with
  | .ok x, .ok y =>
    if h : x = y then isTrue (by rw [h]) else isFalse (by simp [h])
  | .error x, .error y =>
    if h : x = y then isTrue (by rw [h]) else isFalse (by simp [h])
  | .ok _, .error _ => isFalse (by simp)
  | .error _, .ok _ => isFalse (by simp)

/-- A per-item candidate-id stream for the batch operations. -/
def cands2W : Nat → Nat → String := fun i _ => toString i

/-- A record rejected by `valsW` (age not positive). -/
def recBadW : Rec := [("age", .vNum 0)]

/-- A store with two validated records, targeted by the C3 witness batch. -/
def dbTwoW : DB :=
  ⟨[("k1", [("age", .vNum 30)]), ("k2", [("age", .vNum 40)])],
   some [("k1", [("age", .vNum 30)]), ("k2", [("age", .vNum 40)])]⟩

/-- A partial record whose merge over any record fails `valsW`. -/
def patchBadW : Rec := [("age", .vNum (-1))]

/-- The record stored ahead of the C4 counterexample batch. -/
def r0W : Rec := [("x", .vNum 0)]

/-- First item of the C4 counterexample batch. -/
def r1W : Rec := [("x", .vNum 1)]

/-- Second item of the C4 counterexample batch. -/
def r2W : Rec := [("x", .vNum 2)]

/-- A store holding `r0W` under id `a`, in memory and persisted. -/
def db4W : DB := ⟨[("a", r0W)], some [("a", r0W)]⟩

/-- Candidate streams for the C4 counterexample: the first `generateId` call
draws the fresh id `b`, every later call keeps drawing the colliding `a`. -/
def cands4W : Nat → Nat → String := fun i _ => if i = 0 then "b" else "a"

/-- An entry rejected by `valsW`, stored in a blob for the C5 counterexample. -/
def blob5W : Blob := [("i1", recBadW)]

/-- A two-validator set: positive age and nonempty name. -/
def vals2W : Option CollectionValidator :=
  some [("age", fun v => match v with | .vNum n => decide (0 < n) | _ => false),
        ("name", fun v => match v with | .vStr s => !s.isEmpty | _ => false)]

/-- A record failing both validators of `vals2W`. -/
def recBad2W : Rec := [("age", .vNum (-3)), ("name", .vStr "")]

/-- The keys of the map, in order. -/
def keysOf (m : List (String × Rec)) : List String :=
  m.map (fun kv => kv.1)

/-! ### The store invariant: validated records, unique identifiers -/

/-- The invariant of the in-memory map claimed by the spec: every record has
passed validation (with the fixed validator set, "passed when last written"
and "passes now" coincide), and identifiers are unique. -/
def Valid (vals : Option CollectionValidator) (m : List (String × Rec)) : Prop :=
  (∀ kv ∈ m, validate vals kv.2 = .ok ()) ∧ (keysOf m).Nodup

/-- An import blob with two entries under the same id, both valid. -/
def entriesDupW : Blob := [("k", [("x", .vNum 1)]), ("k", [("x", .vNum 2)])]

/-! ### Basic lemmas about the JS `Map` model -/

theorem mapGet_mapSet_self (m : List (String × Rec)) (k : String) (v : Rec) :
    mapGet (mapSet m k v) k = some v := by
  induction m with
  | nil => simp [mapSet, mapGet]
  | cons kv rest ih =>
    by_cases h : kv.1 = k
    · simp [mapSet, h, mapGet]
    · simp [mapSet, h, mapGet, ih]

/-- C1: a record passing every configured validator predicate is created
successfully (whenever the capped random id generation yields an id), and an
immediately following `findById` of the returned id yields the pair of id
and record. -/
theorem create_then_findById (vals : Option CollectionValidator)
    (cands : Nat → String) (db : DB) (r : Rec) (id : String)
    (hval : validate vals r = .ok ())
    (hid : generateId db.data cands = .ok id) :
    (create vals cands db r).1 = .ok id ∧
    findById (create vals cands db r).2 id = .ok (id, r) := by
  unfold create
  rw [hval, hid]
  refine ⟨rfl, ?_⟩
  unfold findById
  simp only [mapGet_mapSet_self]

/-- Witness for C1 at a concrete store, validator set, record and stream. -/
theorem create_then_findById_witness :
    (create valsW candsW dbW recW).1 = .ok "0123456789abcdef" ∧
    findById (create valsW candsW dbW recW).2 "0123456789abcdef" =
      .ok ("0123456789abcdef", recW) :=
  create_then_findById valsW candsW dbW recW "0123456789abcdef" (by rfl) (by rfl)

/-- C7: on the store holding ages 17, 20, 30, 25, the query filtering
age > 18, sorting age descending and limiting to 2 returns exactly the
records with ages 30 then 25, in that order. -/
theorem query_age_example :
    query ageDb [⟨"age", .opGt, .vNum 18⟩] (some [("age", .desc)]) (some 2) =
      .ok [("id3", [("age", .vNum 30)]), ("id4", [("age", .vNum 25)])] := by
  rfl

/-- An item of a batch that fails validation makes the validate-all loop of
`createMany` stop with a wrapped validation error. -/
theorem validateAll_some_of_invalid (vals : Option CollectionValidator)
    (items : List Rec) (r : Rec) (hr : r ∈ items)
    (hbad : validate vals r ≠ .ok ()) :
    ∃ e, validateAll vals items = some e ∧ e.type = .VALIDATION_FAILED := by
  induction items with
  | nil => cases hr
  | cons a rest ih =>
    unfold validateAll
    cases hva : validate vals a with
    | error e => exact ⟨_, rfl, rfl⟩
    | ok u =>
      cases u
      rcases List.mem_cons.mp hr with h | h
      · subst h; exact absurd hva hbad
      · exact ih h

/-- C2: a batch containing a record that fails some validator predicate makes
`createMany` throw a validation error and leaves the store exactly as it was
before the call — no record of the batch is inserted. -/
theorem createMany_invalid_leaves_unchanged (vals : Option CollectionValidator)
    (cands : Nat → Nat → String) (db : DB) (items : List Rec)
    (h : ∃ r ∈ items, validate vals r ≠ .ok ()) :
    ∃ e, createMany vals cands db items = (.error e, db) ∧
      e.type = .VALIDATION_FAILED := by
  obtain ⟨r, hr, hbad⟩ := h
  obtain ⟨e, he, het⟩ := validateAll_some_of_invalid vals items r hr hbad
  exact ⟨e, by unfold createMany; rw [he], het⟩

/-- Witness for C2: the batch of one good and one bad record is rejected and
the empty store stays empty. -/
theorem createMany_invalid_witness :
    ∃ e, createMany valsW cands2W dbW [recW, recBadW] = (.error e, dbW) ∧
      e.type = .VALIDATION_FAILED :=
  createMany_invalid_leaves_unchanged valsW cands2W dbW [recW, recBadW]
    ⟨recBadW, by simp, by decide⟩

/-- An update of a batch whose target id is absent or whose merge fails
validation makes the validate-all loop of `updateMany` stop with an error. -/
theorem updateManyValidate_some_of_invalid (vals : Option CollectionValidator)
    (data : List (String × Rec)) (updates : List (String × Rec))
    (u : String × Rec) (hu : u ∈ updates)
    (hbad : mapGet data u.1 = none ∨
      ∃ ex, mapGet data u.1 = some ex ∧ validate vals (merge ex u.2) ≠ .ok ()) :
    ∃ e, updateManyValidate vals data updates = some e := by
  induction updates with
  | nil => cases hu
  | cons a rest ih =>
    obtain ⟨id, patch⟩ := a
    cases hget : mapGet data id with
    | none =>
      refine ⟨⟨.DOCUMENT_NOT_FOUND, []⟩, ?_⟩
      unfold updateManyValidate
      simp only [hget]
    | some ex =>
      cases hv : validate vals (merge ex patch) with
      | error e =>
        refine ⟨⟨.VALIDATION_FAILED, e.failingFields⟩, ?_⟩
        unfold updateManyValidate
        simp only [hget, hv]
      | ok u' =>
        cases u'
        rcases List.mem_cons.mp hu with h | h
        · subst h
          rcases hbad with h1 | h2
          · rw [hget] at h1; cases h1
          · obtain ⟨ex', hex', hbadv⟩ := h2
            rw [hget] at hex'
            injection hex' with hexeq
            subst hexeq
            exact absurd hv hbadv
        · have hstep : updateManyValidate vals data ((id, patch) :: rest) =
              updateManyValidate vals data rest := by
            conv_lhs => unfold updateManyValidate
            simp only [hget, hv]
          rw [hstep]
          exact ih h

/-- C3: a batch of updates containing an absent id or a merge that fails
validation makes `updateMany` throw and leaves the whole store (hence every
target record) exactly as before the call — a full rollback. -/
theorem updateMany_invalid_rollback (vals : Option CollectionValidator)
    (db : DB) (updates : List (String × Rec))
    (h : ∃ u ∈ updates, mapGet db.data u.1 = none ∨
      ∃ ex, mapGet db.data u.1 = some ex ∧ validate vals (merge ex u.2) ≠ .ok ()) :
    ∃ e, updateMany vals db updates = (.error e, db) := by
  obtain ⟨u, hu, hbad⟩ := h
  obtain ⟨e, he⟩ := updateManyValidate_some_of_invalid vals db.data updates u hu hbad
  exact ⟨e, by unfold updateMany; rw [he]⟩

/-- Witness for C3: one good update plus one merge that fails validation
leaves both records (the whole store) untouched. -/
theorem updateMany_invalid_witness :
    ∃ e, updateMany valsW dbTwoW
        [("k1", [("age", .vNum 50)]), ("k2", patchBadW)] =
      (.error e, dbTwoW) :=
  updateMany_invalid_rollback valsW dbTwoW
    [("k1", [("age", .vNum 50)]), ("k2", patchBadW)]
    ⟨("k2", patchBadW), by simp,
      Or.inr ⟨[("age", .vNum 40)], rfl, by decide⟩⟩

/-- C8: a record failing at least one validator predicate makes `create`
throw a validation error whose detail lists every failing field, and the
store is left unchanged. -/
theorem create_invalid_reports_all (vs : CollectionValidator)
    (cands : Nat → String) (db : DB) (r : Rec)
    (h : ∃ kv ∈ vs, kv.2 (getField r kv.1) = false) :
    ∃ e, create (some vs) cands db r = (.error e, db) ∧
      e.type = .VALIDATION_FAILED ∧
      ∀ kv ∈ vs, kv.2 (getField r kv.1) = false → kv.1 ∈ e.failingFields := by
  obtain ⟨kv0, hkv0, hfail0⟩ := h
  have hmem : ∀ kv ∈ vs, kv.2 (getField r kv.1) = false →
      kv.1 ∈ validationFailures vs r := by
    intro kv hkv hfail
    unfold validationFailures
    exact List.mem_map.mpr ⟨kv, List.mem_filter.mpr ⟨hkv, by simp [hfail]⟩, rfl⟩
  have hne : (validationFailures vs r).isEmpty = false := by
    rcases hemp : (validationFailures vs r) with _ | ⟨a, l⟩
    · exact absurd (hemp ▸ hmem kv0 hkv0 hfail0) (List.not_mem_nil kv0.1)
    · rfl
  have hval : validate (some vs) r =
      .error ⟨.VALIDATION_FAILED, validationFailures vs r⟩ := by
    simp only [validate]
    rw [hne]
    rfl
  exact ⟨⟨.VALIDATION_FAILED, validationFailures vs r⟩,
    by unfold create; rw [hval], rfl, hmem⟩

/-- Counterexample to C4: `createMany` with no validators on a batch of two
records, where the second id generation exhausts its 100 attempts, throws
`DUPLICATE_KEY` after the first record was already inserted — the in-memory
map keeps the partial insert while the persisted blob still has only the
original record, so the in-memory collection is NOT restored to match the
persisted state. -/
theorem createMany_no_rollback_cex :
    (createMany none cands4W db4W [r1W, r2W]).1 =
      .error ⟨.DUPLICATE_KEY, []⟩ ∧
    (createMany none cands4W db4W [r1W, r2W]).2.data =
      [("a", r0W), ("b", r1W)] ∧
    (createMany none cands4W db4W [r1W, r2W]).2.storage = some [("a", r0W)] ∧
    some (createMany none cands4W db4W [r1W, r2W]).2.data ≠
      (createMany none cands4W db4W [r1W, r2W]).2.storage := by
  refine ⟨rfl, rfl, rfl, ?_⟩
  intro h
  rw [show (createMany none cands4W db4W [r1W, r2W]).2.data =
        [("a", r0W), ("b", r1W)] from rfl,
      show (createMany none cands4W db4W [r1W, r2W]).2.storage =
        some [("a", r0W)] from rfl] at h
  exact absurd h (by decide)

/-- With every host write succeeding, `createManyW` is `createMany`. -/
theorem createManyW_writes_ok (vals : Option CollectionValidator)
    (cands : Nat → Nat → String) (db : DB) (items : List Rec) :
    createManyW vals cands (fun _ => true) db items =
      createMany vals cands db items := by
  unfold createManyW createMany
  split
  · rfl
  · split
    · rfl
    · rfl

/-- With every host write succeeding, `updateManyW` is `updateMany`. -/
theorem updateManyW_writes_ok (vals : Option CollectionValidator) (db : DB)
    (updates : List (String × Rec)) :
    updateManyW vals (fun _ => true) db updates = updateMany vals db updates := by
  unfold updateManyW updateMany
  split
  · rfl
  · rfl

/-- With every host write succeeding, `deleteManyW` is `deleteMany`. -/
theorem deleteManyW_writes_ok (db : DB) (ids : List String) :
    deleteManyW (fun _ => true) db ids = deleteMany db ids := by
  unfold deleteManyW deleteMany
  split
  · rfl
  · rfl

/-- With every host write succeeding, `dbImportW` is `dbImport`. -/
theorem dbImportW_writes_ok (vals : Option CollectionValidator) (db : DB)
    (entries : Blob) :
    dbImportW vals (fun _ => true) db entries = dbImport vals db entries := by
  unfold dbImportW dbImport
  by_cases h : (entries.filter (fun kv => (validate vals kv.2).isOk)).length ≠
      entries.length
  · dsimp only
    rw [if_pos h, if_pos h]
  · dsimp only
    rw [if_neg h, if_neg h]
    rfl

/-- C4 amended: `updateMany` and `deleteMany` leave the in-memory collection
exactly as before the call on every failure they throw, a persistence-write
failure included (their catch blocks restore the snapshot); `createMany` and
`import` do so only on a validation failure, which precedes any mutation.
Their post-validation failures are not rolled back: for `createMany` the
counterexample keeps partial inserts in memory, and (last conjunct) an
`import` whose `clear()`-write throws leaves the in-memory map emptied while
the slot still holds the old blob. -/
theorem batch_failure_state_amended :
    (∀ (vals : Option CollectionValidator) (wr : Nat → Bool) (db : DB)
        updates e st,
      updateManyW vals wr db updates = (.error e, st) → st = db) ∧
    (∀ (wr : Nat → Bool) (db : DB) ids e st,
      deleteManyW wr db ids = (.error e, st) → st = db) ∧
    (∀ (vals : Option CollectionValidator) cands (wr : Nat → Bool) (db : DB)
        items e,
      validateAll vals items = some e →
      createManyW vals cands wr db items = (.error e, db)) ∧
    (∀ (vals : Option CollectionValidator) (wr : Nat → Bool) (db : DB)
        (entries : Blob),
      (entries.filter (fun kv => (validate vals kv.2).isOk)).length ≠
        entries.length →
      dbImportW vals wr db entries = (.error ⟨.VALIDATION_FAILED, []⟩, db)) ∧
    (dbImportW none (fun _ => false) db4W [("k9", r1W)] =
        (.error ⟨.STORAGE_WRITE_ERROR, []⟩, ⟨[], some [("a", r0W)]⟩) ∧
      some ([] : List (String × Rec)) ≠ some [("a", r0W)]) := by
  refine ⟨?_, ?_, ?_, ?_, rfl, by decide⟩
  · intro vals wr db updates e st h
    unfold updateManyW at h
    split at h
    · exact (congrArg Prod.snd h).symm
    · split at h
      · cases h
      · exact (congrArg Prod.snd h).symm
  · intro wr db ids e st h
    unfold deleteManyW at h
    split at h
    · exact (congrArg Prod.snd h).symm
    · split at h
      · cases h
      · exact (congrArg Prod.snd h).symm
  · intro vals cands wr db items e h
    unfold createManyW
    rw [h]
  · intro vals wr db entries h
    unfold dbImportW
    rw [if_pos h]

/-- Witness for the amended C4: an absent-id `updateMany`, a write-failing
but valid `updateMany`, an absent-id `deleteMany`, and validation-failing
`createMany` and `import`, all at concrete stores, all leaving the store
exactly as it was. -/
theorem batch_failure_state_amended_witness :
    (updateManyW valsW (fun _ => false) dbTwoW [("zz", patchBadW)]).2 = dbTwoW ∧
    (updateManyW valsW (fun _ => false) dbTwoW
      [("k1", [("age", .vNum 50)])]).2 = dbTwoW ∧
    (deleteManyW (fun _ => false) dbTwoW ["zz"]).2 = dbTwoW ∧
    createManyW valsW cands2W (fun _ => false) dbTwoW [recBadW] =
      (.error ⟨.VALIDATION_FAILED, ["age"]⟩, dbTwoW) ∧
    dbImportW valsW (fun _ => false) dbTwoW [("k9", recBadW)] =
      (.error ⟨.VALIDATION_FAILED, []⟩, dbTwoW) :=
  ⟨batch_failure_state_amended.1 valsW (fun _ => false) dbTwoW
      [("zz", patchBadW)] ⟨.DOCUMENT_NOT_FOUND, []⟩ _ rfl,
   batch_failure_state_amended.1 valsW (fun _ => false) dbTwoW
      [("k1", [("age", .vNum 50)])] ⟨.STORAGE_WRITE_ERROR, []⟩ _ rfl,
   batch_failure_state_amended.2.1 (fun _ => false) dbTwoW ["zz"]
      ⟨.DOCUMENT_NOT_FOUND, []⟩ _ rfl,
   batch_failure_state_amended.2.2.1 valsW cands2W (fun _ => false) dbTwoW
      [recBadW] ⟨.VALIDATION_FAILED, ["age"]⟩ rfl,
   batch_failure_state_amended.2.2.2.1 valsW (fun _ => false) dbTwoW
      [("k9", recBadW)] (by decide)⟩

/-- Counterexample to C5: construction over a blob with an invalid entry does
abort, but the error it throws is the `VALIDATION_FAILED` thrown by
`validate` and re-thrown unwrapped — not the `INITIALIZATION_ERROR` tag of
the error taxonomy. -/
theorem construct_error_tag_cex :
    construct "users" valsW (some blob5W) =
      .error ⟨.VALIDATION_FAILED, ["age"]⟩ ∧
    DatabaseErrorType.VALIDATION_FAILED ≠ DatabaseErrorType.INITIALIZATION_ERROR :=
  ⟨rfl, by decide⟩

/-- Every error a configured `validate` throws carries `VALIDATION_FAILED`. -/
theorem validate_error_type (vals : Option CollectionValidator) (r : Rec)
    (e : DatabaseError) (h : validate vals r = .error e) :
    e.type = .VALIDATION_FAILED := by
  unfold validate at h
  split at h
  · cases h
  · dsimp only at h
    split at h
    · cases h
    · injection h with h'
      rw [← h']

/-- The loading loop aborts with the validation error of the first invalid
entry, whatever was loaded before it. -/
theorem initLoop_error_of_invalid (vals : Option CollectionValidator)
    (entries : Blob) (kv : String × Rec) (hkv : kv ∈ entries)
    (hbad : validate vals kv.2 ≠ .ok ()) :
    ∀ data, ∃ e, initLoop vals data entries = .error e ∧
      e.type = .VALIDATION_FAILED := by
  induction entries with
  | nil => cases hkv
  | cons a rest ih =>
    intro data
    obtain ⟨id, record⟩ := a
    cases hv : validate vals record with
    | error e =>
      refine ⟨e, ?_, validate_error_type vals record e hv⟩
      unfold initLoop
      simp only [hv]
    | ok u =>
      cases u
      rcases List.mem_cons.mp hkv with h | h
      · subst h; exact absurd hv hbad
      · have hstep : initLoop vals data ((id, record) :: rest) =
            initLoop vals (mapSet data id record) rest := by
          conv_lhs => unfold initLoop
          simp only [hv]
        rw [hstep]
        exact ih h (mapSet data id record)

/-- C5 amended: a stored blob containing an entry that fails validation makes
construction abort with the validation error (tag `VALIDATION_FAILED`, not
`INITIALIZATION_ERROR`); since no store value is returned, no entry of the
blob becomes observable — no partial load. -/
theorem construct_invalid_aborts (name : String)
    (vals : Option CollectionValidator) (entries : Blob)
    (hname : 1 ≤ name.length ∧ name.length ≤ 16)
    (h : ∃ kv ∈ entries, validate vals kv.2 ≠ .ok ()) :
    ∃ e, construct name vals (some entries) = .error e ∧
      e.type = .VALIDATION_FAILED := by
  obtain ⟨kv, hkv, hbad⟩ := h
  obtain ⟨e, he, het⟩ := initLoop_error_of_invalid vals entries kv hkv hbad []
  refine ⟨e, ?_, het⟩
  unfold construct
  rw [if_neg (by omega)]
  rw [show initStore vals (some entries) = initLoop vals [] entries from rfl, he]

/-- Witness for the amended C5 at the concrete invalid blob. -/
theorem construct_invalid_witness :
    ∃ e, construct "users" valsW (some blob5W) = .error e ∧
      e.type = .VALIDATION_FAILED :=
  construct_invalid_aborts "users" valsW blob5W (by decide)
    ⟨("i1", recBadW), by decide, by decide⟩

/-- Witness for C8: a record failing both validators is rejected, the store
is unchanged, and both failing fields are listed in the error detail. -/
theorem create_invalid_witness :
    ∃ e, create vals2W candsW dbW recBad2W = (.error e, dbW) ∧
      e.type = .VALIDATION_FAILED ∧
      ∀ kv ∈ (vals2W.getD []), kv.2 (getField recBad2W kv.1) = false →
        kv.1 ∈ e.failingFields :=
  create_invalid_reports_all (vals2W.getD []) candsW dbW recBad2W
    ⟨("age", fun v => match v with | .vNum n => decide (0 < n) | _ => false),
      by simp [vals2W], by decide⟩

/-- The general inversion of `mapSet` under `mapGet`. -/
theorem mapGet_mapSet (m : List (String × Rec)) (k k' : String) (v : Rec) :
    mapGet (mapSet m k v) k' = if k = k' then some v else mapGet m k' := by
  induction m with
  | nil =>
    by_cases h : k = k' <;> simp [mapSet, mapGet, h]
  | cons kv rest ih =>
    by_cases h : kv.1 = k
    · by_cases h' : k = k'
      · simp [mapSet, mapGet, h, h']
      · have : ¬(kv.1 = k') := by rw [h]; exact h'
        simp [mapSet, mapGet, h, h', this]
    · by_cases h' : kv.1 = k'
      · have hne : ¬(k = k') := fun hk => h (hk ▸ h')
        have hne' : ¬(k' = k) := fun hk => hne hk.symm
        simp [mapSet, mapGet, h, h', hne, hne']
      · simp [mapSet, mapGet, h, h', ih]

/-- A left fold of `mapSet` looks up to the LAST occurrence of a key among
the folded entries, falling back to the accumulator. -/
theorem mapGet_foldl_mapSet (entries : Blob) (k : String) :
    ∀ acc, mapGet (entries.foldl (fun m kv => mapSet m kv.1 kv.2) acc) k =
      match entries.reverse.find? (fun kv => kv.1 = k) with
      | some kv => some kv.2
      | none => mapGet acc k := by
  induction entries with
  | nil => intro acc; rfl
  | cons e rest ih =>
    intro acc
    rw [List.foldl_cons, ih, List.reverse_cons, List.find?_append]
    cases hfind : rest.reverse.find? (fun kv => kv.1 = k) with
    | some kv => rfl
    | none =>
      simp only [Option.orElse_none, Option.none_orElse]
      by_cases h : e.1 = k
      · simp [List.find?, h, mapGet_mapSet]
      · simp [List.find?, h, mapGet_mapSet]

/-- `mapSet` grows the map by at most the one appended entry. -/
theorem length_mapSet (m : List (String × Rec)) (k : String) (v : Rec) :
    (mapSet m k v).length ≤ m.length + 1 := by
  induction m with
  | nil => simp [mapSet]
  | cons kv rest ih =>
    by_cases h : kv.1 = k
    · simp [mapSet, h]
    · simp only [mapSet, h, if_false, List.length_cons]
      omega

/-- Folding `mapSet` over a list grows the accumulator by at most the number
of folded entries. -/
theorem length_foldl_mapSet (entries : Blob) :
    ∀ acc : List (String × Rec),
      (entries.foldl (fun m kv => mapSet m kv.1 kv.2) acc).length ≤
        acc.length + entries.length := by
  induction entries with
  | nil => intro acc; simp
  | cons e rest ih =>
    intro acc
    rw [List.foldl_cons]
    calc (rest.foldl (fun m kv => mapSet m kv.1 kv.2) (mapSet acc e.1 e.2)).length
        ≤ (mapSet acc e.1 e.2).length + rest.length := ih _
      _ ≤ acc.length + 1 + rest.length := by
          have := length_mapSet acc e.1 e.2; omega
      _ = acc.length + (e :: rest).length := by simp; omega

/-- C10: an import whose parsed entries all validate succeeds even when the
same identifier occurs more than once; the resulting map sends each id to
the record of its LAST occurrence in the list (earlier occurrences are
silently dropped), so the collection can hold fewer records than the input
had entries. -/
theorem import_duplicates_last_wins (vals : Option CollectionValidator)
    (db : DB) (entries : Blob)
    (hvalid : ∀ kv ∈ entries, validate vals kv.2 = .ok ()) :
    (dbImport vals db entries).1 = .ok () ∧
    (∀ id, mapGet (dbImport vals db entries).2.data id =
      match entries.reverse.find? (fun kv => kv.1 = id) with
      | some kv => some kv.2
      | none => none) ∧
    (dbImport vals db entries).2.data.length ≤ entries.length := by
  have hfilter : entries.filter (fun kv => (validate vals kv.2).isOk) = entries := by
    rw [List.filter_eq_self]
    intro kv hkv
    rw [hvalid kv hkv]
    rfl
  have hrun : dbImport vals db entries =
      (.ok (), ⟨entries.foldl (fun m kv => mapSet m kv.1 kv.2) [],
        saveChanges (entries.foldl (fun m kv => mapSet m kv.1 kv.2) [])⟩) := by
    simp only [dbImport, hfilter]
    rw [if_neg (by omega)]
  refine ⟨by rw [hrun], ?_, ?_⟩
  · intro id
    rw [hrun]
    exact mapGet_foldl_mapSet entries id []
  · rw [hrun]
    have := length_foldl_mapSet entries []
    simpa using this

/-- `Map.set` on an absent key appends the entry. -/
theorem mapSet_eq_append_of_not_has (m : List (String × Rec)) (k : String)
    (v : Rec) (h : mapHas m k = false) : mapSet m k v = m ++ [(k, v)] := by
  induction m with
  | nil => rfl
  | cons kv rest ih =>
    simp only [mapHas, Bool.or_eq_false_iff, decide_eq_false_iff_not] at h
    simp [mapSet, h.1, ih h.2]

/-- `Map.has` distributes over concatenation. -/
theorem mapHas_append (a b : List (String × Rec)) (k : String) :
    mapHas (a ++ b) k = (mapHas a k || mapHas b k) := by
  induction a with
  | nil => simp [mapHas]
  | cons kv rest ih => simp [mapHas, ih, Bool.or_assoc]

/-- Re-`set`ting a list of entries with pairwise distinct keys, none of which
is in the accumulator, appends it unchanged. -/
theorem foldl_mapSet_of_nodup (l : Blob) :
    ∀ acc, (∀ kv ∈ l, mapHas acc kv.1 = false) → (keysOf l).Nodup →
      l.foldl (fun m kv => mapSet m kv.1 kv.2) acc = acc ++ l := by
  induction l with
  | nil => intro acc _ _; simp
  | cons e rest ih =>
    intro acc hdisj hnd
    obtain ⟨k, v⟩ := e
    have hk : mapHas acc k = false := hdisj (k, v) (List.mem_cons_self _ _)
    have hndk : k ∉ keysOf rest := by
      have := (List.nodup_cons.mp hnd).1
      simpa [keysOf] using this
    rw [List.foldl_cons]
    rw [show mapSet acc k v = acc ++ [(k, v)] from
      mapSet_eq_append_of_not_has acc k v hk]
    rw [ih (acc ++ [(k, v)]) ?_ (List.nodup_cons.mp hnd).2]
    · simp
    · intro kv hkv
      rw [mapHas_append]
      have h1 : mapHas acc kv.1 = false := hdisj kv (List.mem_cons_of_mem _ hkv)
      have h2 : mapHas [(k, v)] kv.1 = false := by
        have : k ≠ kv.1 := by
          intro hkk
          exact hndk (hkk ▸ List.mem_map_of_mem (fun kw => kw.1) hkv)
        simp [mapHas, this]
      rw [h1, h2]
      rfl

/-- C6: on a store whose records all validate and whose identifiers are
unique (both invariants of every reachable store), exporting, clearing and
re-importing the exported blob restores exactly the original id-to-record
mapping, and persists it. -/
theorem export_clear_import_roundtrip (vals : Option CollectionValidator)
    (db : DB) (hvalid : ∀ kv ∈ db.data, validate vals kv.2 = .ok ())
    (hnd : (keysOf db.data).Nodup) :
    dbImport vals (clear db) (dbExport db) = (.ok (), ⟨db.data, some db.data⟩) := by
  have hfilter : (dbExport db).filter (fun kv => (validate vals kv.2).isOk) =
      db.data := by
    unfold dbExport
    rw [List.filter_eq_self]
    intro kv hkv
    rw [hvalid kv hkv]
    rfl
  simp only [dbImport, hfilter]
  rw [if_neg (by simp [dbExport])]
  rw [foldl_mapSet_of_nodup db.data [] (fun kv _ => rfl) hnd]
  rfl

/-- Witness for C6 at the concrete two-record store. -/
theorem export_clear_import_witness :
    dbImport valsW (clear dbTwoW) (dbExport dbTwoW) =
      (.ok (), ⟨dbTwoW.data, some dbTwoW.data⟩) :=
  export_clear_import_roundtrip valsW dbTwoW (by decide) (by decide)

/-! ### Field lookup through the object spread, towards the store invariant -/

theorem getField_eq_vUndef_of_not_hasField (m : Rec) (k : String)
    (h : hasField m k = false) : getField m k = .vUndef := by
  induction m with
  | nil => rfl
  | cons kv rest ih =>
    simp only [hasField, Bool.or_eq_false_iff, decide_eq_false_iff_not] at h
    simp [getField, h.1, ih h.2]

theorem getField_append (a b : Rec) (k : String) :
    getField (a ++ b) k =
      if hasField a k = true then getField a k else getField b k := by
  induction a with
  | nil => simp [getField, hasField]
  | cons kv rest ih =>
    by_cases h : kv.1 = k
    · simp [getField, hasField, h]
    · simp [getField, hasField, h, ih]

theorem find?_key (b : Rec) (k : String) :
    b.find? (fun kw => kw.1 = k) =
      if hasField b k = true then some (k, getField b k) else none := by
  induction b with
  | nil => simp [hasField]
  | cons kw rest ih =>
    obtain ⟨k0, v0⟩ := kw
    by_cases h : k0 = k
    · simp [List.find?_cons, h, hasField, getField]
    · simp [List.find?_cons, h, hasField, getField, ih]

theorem spreadOverride_key (b : Rec) (kv : String × Value) :
    (spreadOverride b kv).1 = kv.1 := by
  unfold spreadOverride
  split
  · rfl
  · rfl

theorem hasField_map_spreadOverride (a b : Rec) (k : String) :
    hasField (a.map (spreadOverride b)) k = hasField a k := by
  induction a with
  | nil => rfl
  | cons kv rest ih =>
    simp [hasField, spreadOverride_key, ih]

theorem getField_map_spreadOverride (a b : Rec) (k : String) :
    getField (a.map (spreadOverride b)) k =
      if hasField a k = true then
        (if hasField b k = true then getField b k else getField a k)
      else .vUndef := by
  induction a with
  | nil => simp [getField, hasField]
  | cons kv rest ih =>
    obtain ⟨k0, v0⟩ := kv
    by_cases h : k0 = k
    · subst h
      have hkey : (spreadOverride b (k0, v0)).1 = k0 := spreadOverride_key b (k0, v0)
      have hval : (spreadOverride b (k0, v0)).2 =
          if hasField b k0 = true then getField b k0 else v0 := by
        unfold spreadOverride
        rw [find?_key]
        by_cases hb : hasField b k0 = true
        · simp [hb]
        · simp [hb]
      simp only [List.map_cons, getField, hkey, hasField]
      simp [hval]
    · simp only [List.map_cons, getField, spreadOverride_key, hasField]
      simp [h, ih]

theorem any_key_eq_hasField (a : Rec) (k : String) :
    (a.any (fun kv => kv.1 = k)) = hasField a k := by
  induction a with
  | nil => rfl
  | cons kv rest ih => simp [List.any_cons, hasField, ih]

theorem getField_filter_spread_of_hasField (a b : Rec) (k : String)
    (ha : hasField a k = true) :
    getField (b.filter (fun kw => !(a.any (fun kv => kv.1 = kw.1)))) k =
      .vUndef := by
  induction b with
  | nil => rfl
  | cons kw rest ih =>
    obtain ⟨k0, v0⟩ := kw
    by_cases hkeep : (a.any (fun kv => kv.1 = k0)) = true
    · simp only [List.filter_cons]
      simp [hkeep, ih]
    · have hk0 : ¬(k0 = k) := by
        intro hk
        subst hk
        rw [any_key_eq_hasField, ha] at hkeep
        exact hkeep rfl
      simp only [List.filter_cons]
      simp [hkeep, getField, hk0, ih]

theorem getField_filter_spread_of_not_hasField (a b : Rec) (k : String)
    (ha : hasField a k = false) :
    getField (b.filter (fun kw => !(a.any (fun kv => kv.1 = kw.1)))) k =
      getField b k := by
  induction b with
  | nil => rfl
  | cons kw rest ih =>
    obtain ⟨k0, v0⟩ := kw
    by_cases hk0 : k0 = k
    · subst hk0
      have hkeep : a.any (fun kv => kv.1 = k0) = false := by
        rw [any_key_eq_hasField]
        exact ha
      simp only [List.filter_cons]
      simp [hkeep, getField]
    · by_cases hkeep : (a.any (fun kv => kv.1 = k0)) = true
      · simp only [List.filter_cons]
        simp [hkeep, getField, hk0, ih]
      · simp only [List.filter_cons]
        simp [hkeep, getField, hk0, ih]

/-- Field lookup through the spread: fields declared by the patch come from
the patch, all others from the base object. -/
theorem getField_merge (a b : Rec) (k : String) :
    getField (merge a b) k =
      if hasField b k = true then getField b k else getField a k := by
  unfold merge
  rw [getField_append, hasField_map_spreadOverride, getField_map_spreadOverride]
  by_cases ha : hasField a k = true
  · simp [ha]
  · simp only [ha, if_false]
    rw [getField_filter_spread_of_not_hasField a b k (by simpa using ha)]
    by_cases hb : hasField b k = true
    · simp [hb]
    · rw [getField_eq_vUndef_of_not_hasField b k (by simpa using hb),
        getField_eq_vUndef_of_not_hasField a k (by simpa using ha)]
      simp

theorem validationFailures_eq_nil_iff (vs : CollectionValidator) (r : Rec) :
    validationFailures vs r = [] ↔
      ∀ kv ∈ vs, kv.2 (getField r kv.1) = true := by
  unfold validationFailures
  rw [List.map_eq_nil_iff, List.filter_eq_nil_iff]
  constructor
  · intro h kv hkv
    have := h kv hkv
    simpa using this
  · intro h kv hkv
    simp [h kv hkv]

/-- A configured `validate` accepts exactly the records every declared field
predicate accepts. -/
theorem validate_ok_iff (vs : CollectionValidator) (r : Rec) :
    validate (some vs) r = .ok () ↔
      ∀ kv ∈ vs, kv.2 (getField r kv.1) = true := by
  constructor
  · intro h
    rw [← validationFailures_eq_nil_iff]
    by_contra hne
    have hfalse : (validationFailures vs r).isEmpty = false := by
      rcases hh : validationFailures vs r with _ | _
      · exact absurd hh hne
      · rfl
    simp only [validate] at h
    rw [hfalse] at h
    cases h
  · intro h
    simp only [validate]
    rw [(validationFailures_eq_nil_iff vs r).mpr h]
    rfl

/-- The key fact behind the invariant surviving `updateMany` with repeated
target ids: because validators are per-field, a record merged over ANY valid
base is valid as soon as the same patch merged over some base was. -/
theorem validate_merge_override (vals : Option CollectionValidator)
    (cur ex patch : Rec) (hcur : validate vals cur = .ok ())
    (hex : validate vals (merge ex patch) = .ok ()) :
    validate vals (merge cur patch) = .ok () := by
  cases vals with
  | none => rfl
  | some vs =>
    rw [validate_ok_iff] at hcur hex ⊢
    intro kv hkv
    rw [getField_merge]
    by_cases hp : hasField patch kv.1 = true
    · rw [if_pos hp]
      have := hex kv hkv
      rw [getField_merge, if_pos hp] at this
      exact this
    · rw [if_neg hp]
      exact hcur kv hkv

theorem Valid_nil (vals : Option CollectionValidator) : Valid vals [] :=
  ⟨fun kv h => absurd h (List.not_mem_nil kv), by simp [keysOf]⟩

theorem mem_mapSet (m : List (String × Rec)) (k : String) (v : Rec)
    (kv : String × Rec) (h : kv ∈ mapSet m k v) : kv = (k, v) ∨ kv ∈ m := by
  induction m with
  | nil =>
    left
    simpa [mapSet] using h
  | cons kw rest ih =>
    by_cases hk : kw.1 = k
    · rw [mapSet] at h
      rw [if_pos hk] at h
      rcases List.mem_cons.mp h with h | h
      · exact Or.inl h
      · exact Or.inr (List.mem_cons_of_mem _ h)
    · rw [mapSet] at h
      rw [if_neg hk] at h
      rcases List.mem_cons.mp h with h | h
      · exact Or.inr (h ▸ List.mem_cons_self _ _)
      · rcases ih h with h' | h'
        · exact Or.inl h'
        · exact Or.inr (List.mem_cons_of_mem _ h')

theorem keysOf_mapSet_mem (m : List (String × Rec)) (k : String) (v : Rec)
    (a : String) (h : a ∈ keysOf (mapSet m k v)) : a = k ∨ a ∈ keysOf m := by
  unfold keysOf at h
  obtain ⟨kv, hkv, hk⟩ := List.mem_map.mp h
  rcases mem_mapSet m k v kv hkv with h' | h'
  · left; rw [← hk, h']
  · right; exact hk ▸ List.mem_map_of_mem _ h'

theorem nodup_keysOf_mapSet (m : List (String × Rec)) (k : String) (v : Rec)
    (h : (keysOf m).Nodup) : (keysOf (mapSet m k v)).Nodup := by
  induction m with
  | nil => simp [mapSet, keysOf]
  | cons kw rest ih =>
    have hnd := h
    rw [show keysOf (kw :: rest) = kw.1 :: keysOf rest from rfl,
      List.nodup_cons] at hnd
    by_cases hk : kw.1 = k
    · rw [mapSet, if_pos hk]
      rw [show keysOf ((k, v) :: rest) = k :: keysOf rest from rfl,
        List.nodup_cons]
      exact ⟨hk ▸ hnd.1, hnd.2⟩
    · rw [mapSet, if_neg hk]
      rw [show keysOf (kw :: mapSet rest k v) =
        kw.1 :: keysOf (mapSet rest k v) from rfl, List.nodup_cons]
      refine ⟨?_, ih hnd.2⟩
      intro hmem
      rcases keysOf_mapSet_mem rest k v kw.1 hmem with h' | h'
      · exact hk h'
      · exact hnd.1 h'

/-- `Map.set` of a validated record preserves the invariant. -/
theorem Valid_mapSet (vals : Option CollectionValidator)
    (m : List (String × Rec)) (k : String) (v : Rec)
    (hm : Valid vals m) (hv : validate vals v = .ok ()) :
    Valid vals (mapSet m k v) := by
  refine ⟨?_, nodup_keysOf_mapSet m k v hm.2⟩
  intro kv hkv
  rcases mem_mapSet m k v kv hkv with h | h
  · rw [h]; exact hv
  · exact hm.1 kv h

/-- `Map.delete` preserves the invariant. -/
theorem Valid_mapDelete (vals : Option CollectionValidator)
    (m : List (String × Rec)) (k : String) (hm : Valid vals m) :
    Valid vals (mapDelete m k) := by
  constructor
  · intro kv hkv
    exact hm.1 kv (List.mem_of_mem_filter hkv)
  · unfold keysOf mapDelete
    exact hm.2.sublist ((List.filter_sublist m).map (fun kv => kv.1))

theorem Valid_foldl_mapDelete (vals : Option CollectionValidator)
    (ids : List String) :
    ∀ acc, Valid vals acc → Valid vals (ids.foldl mapDelete acc) := by
  induction ids with
  | nil => intro acc h; exact h
  | cons id rest ih =>
    intro acc h
    rw [List.foldl_cons]
    exact ih (mapDelete acc id) (Valid_mapDelete vals acc id h)

theorem Valid_foldl_mapSet (vals : Option CollectionValidator) (l : Blob) :
    ∀ acc, Valid vals acc → (∀ kv ∈ l, validate vals kv.2 = .ok ()) →
      Valid vals (l.foldl (fun m kv => mapSet m kv.1 kv.2) acc) := by
  induction l with
  | nil => intro acc h _; exact h
  | cons e rest ih =>
    intro acc h hv
    rw [List.foldl_cons]
    exact ih (mapSet acc e.1 e.2)
      (Valid_mapSet vals acc e.1 e.2 h (hv e (List.mem_cons_self _ _)))
      (fun kv hkv => hv kv (List.mem_cons_of_mem _ hkv))

theorem validateAll_none_forall (vals : Option CollectionValidator)
    (items : List Rec) (h : validateAll vals items = none) :
    ∀ r ∈ items, validate vals r = .ok () := by
  induction items with
  | nil => intro r hr; cases hr
  | cons a rest ih =>
    intro r hr
    unfold validateAll at h
    split at h
    · cases h
    · rename_i u hva
      rcases List.mem_cons.mp hr with h' | h'
      · cases u; exact h' ▸ hva
      · exact ih h r h'

theorem createManyLoop_valid (vals : Option CollectionValidator)
    (cands : Nat → Nat → String) (items : List Rec) :
    ∀ (i : Nat) (data : List (String × Rec)), Valid vals data →
      (∀ r ∈ items, validate vals r = .ok ()) →
      Valid vals (createManyLoop cands i data items).2 := by
  induction items with
  | nil => intro i data hd _; exact hd
  | cons item rest ih =>
    intro i data hd hv
    have hrec := ih (i + 1) (mapSet data (cands i 0) item)
    unfold createManyLoop
    split
    · exact hd
    · rename_i id hid
      have hvalmapped : Valid vals (mapSet data id item) :=
        Valid_mapSet vals data id item hd (hv item (List.mem_cons_self _ _))
      have hrest : Valid vals
          (createManyLoop cands (i + 1) (mapSet data id item) rest).2 :=
        ih (i + 1) (mapSet data id item) hvalmapped
          (fun r hr => hv r (List.mem_cons_of_mem _ hr))
      split
      · rename_i ids d heq
        have : (createManyLoop cands (i + 1) (mapSet data id item) rest).2 = d := by
          rw [heq]
        exact this ▸ hrest
      · rename_i e d heq
        have : (createManyLoop cands (i + 1) (mapSet data id item) rest).2 = d := by
          rw [heq]
        exact this ▸ hrest

theorem mapHas_of_mapGet_some (m : List (String × Rec)) (k : String) (v : Rec)
    (h : mapGet m k = some v) : mapHas m k = true := by
  induction m with
  | nil => cases h
  | cons kv rest ih =>
    by_cases hk : kv.1 = k
    · simp [mapHas, hk]
    · rw [mapGet, if_neg hk] at h
      simp [mapHas, hk, ih h]

theorem mapGet_some_of_mapHas (m : List (String × Rec)) (k : String)
    (h : mapHas m k = true) : ∃ v, mapGet m k = some v := by
  induction m with
  | nil => cases h
  | cons kv rest ih =>
    by_cases hk : kv.1 = k
    · exact ⟨kv.2, by rw [mapGet, if_pos hk]⟩
    · rw [mapHas] at h
      simp only [Bool.or_eq_true, decide_eq_true_eq] at h
      rcases h with h | h
      · exact absurd h hk
      · obtain ⟨v, hv⟩ := ih h
        exact ⟨v, by rw [mapGet, if_neg hk]; exact hv⟩

theorem mem_of_mapGet_some (m : List (String × Rec)) (k : String) (v : Rec)
    (h : mapGet m k = some v) : (k, v) ∈ m := by
  induction m with
  | nil => cases h
  | cons kv rest ih =>
    obtain ⟨k0, v0⟩ := kv
    by_cases hk : k0 = k
    · rw [mapGet, if_pos hk] at h
      injection h with h'
      subst hk
      subst h'
      exact List.mem_cons_self _ _
    · rw [mapGet, if_neg hk] at h
      exact List.mem_cons_of_mem _ (ih h)

theorem mapHas_mapSet_of_has (m : List (String × Rec)) (a k : String) (v : Rec)
    (h : mapHas m a = true) : mapHas (mapSet m k v) a = true := by
  induction m with
  | nil => cases h
  | cons kv rest ih =>
    rw [mapHas] at h
    simp only [Bool.or_eq_true, decide_eq_true_eq] at h
    by_cases hk : kv.1 = k
    · rw [mapSet, if_pos hk, mapHas]
      rcases h with h | h
      · simp [← hk, h]
      · simp [h]
    · rw [mapSet, if_neg hk, mapHas]
      rcases h with h | h
      · simp [h]
      · simp [ih h]

theorem updateManyValidate_cons_none (vals : Option CollectionValidator)
    (data : List (String × Rec)) (id : String) (patch : Rec)
    (rest : List (String × Rec))
    (h : updateManyValidate vals data ((id, patch) :: rest) = none) :
    ∃ ex, mapGet data id = some ex ∧ validate vals (merge ex patch) = .ok () ∧
      updateManyValidate vals data rest = none := by
  unfold updateManyValidate at h
  split at h
  · cases h
  · rename_i ex hex
    split at h
    · cases h
    · rename_i u hv
      cases u
      exact ⟨ex, hex, hv, h⟩

/-- The apply loop of `updateMany` preserves the invariant: each applied
merge validates because its patch validated against the snapshot and the
current record is itself valid. -/
theorem updateManyApply_valid (vals : Option CollectionValidator)
    (orig : List (String × Rec)) (updates : List (String × Rec)) :
    ∀ m, Valid vals m →
      (∀ x, mapHas orig x = true → mapHas m x = true) →
      updateManyValidate vals orig updates = none →
      Valid vals (updateManyApply m updates) := by
  induction updates with
  | nil => intro m hm _ _; exact hm
  | cons a rest ih =>
    obtain ⟨id, patch⟩ := a
    intro m hm hk hval
    obtain ⟨ex, hex, hexv, hrest⟩ :=
      updateManyValidate_cons_none vals orig id patch rest hval
    have hhas : mapHas m id = true :=
      hk id (mapHas_of_mapGet_some orig id ex hex)
    obtain ⟨cur, hcur⟩ := mapGet_some_of_mapHas m id hhas
    have hcurv : validate vals cur = .ok () :=
      hm.1 (id, cur) (mem_of_mapGet_some m id cur hcur)
    have hmerged : validate vals (merge cur patch) = .ok () :=
      validate_merge_override vals cur ex patch hcurv hexv
    have step : updateManyApply m ((id, patch) :: rest) =
        updateManyApply (mapSet m id (merge cur patch)) rest := by
      conv_lhs => unfold updateManyApply
      rw [hcur]
      rfl
    rw [step]
    exact ih (mapSet m id (merge cur patch))
      (Valid_mapSet vals m id (merge cur patch) hm hmerged)
      (fun x hx => mapHas_mapSet_of_has m x id (merge cur patch) (hk x hx))
      hrest

theorem except_unit_isOk (x : Except DatabaseError Unit) (h : x.isOk = true) :
    x = .ok () := by
  cases x with
  | ok u => cases u; rfl
  | error e => cases h

/-- C9: the store invariant — every record of the in-memory map passes the
configured validators and identifiers are unique — is preserved by every
public mutating operation (create, createMany, update, updateMany, delete,
deleteMany, import, clear), whether the call succeeds or throws. -/
theorem invariant_preserved (vals : Option CollectionValidator) :
    (∀ (db : DB) (r : Rec) (cands : Nat → String), Valid vals db.data →
      Valid vals (create vals cands db r).2.data) ∧
    (∀ (db : DB) (items : List Rec) (cands : Nat → Nat → String),
      Valid vals db.data → Valid vals (createMany vals cands db items).2.data) ∧
    (∀ (db : DB) (id : String) (patch : Rec), Valid vals db.data →
      Valid vals (update vals db id patch).2.data) ∧
    (∀ (db : DB) (updates : List (String × Rec)), Valid vals db.data →
      Valid vals (updateMany vals db updates).2.data) ∧
    (∀ (db : DB) (id : String), Valid vals db.data →
      Valid vals (delete db id).2.data) ∧
    (∀ (db : DB) (ids : List String), Valid vals db.data →
      Valid vals (deleteMany db ids).2.data) ∧
    (∀ (db : DB) (entries : Blob), Valid vals db.data →
      Valid vals (dbImport vals db entries).2.data) ∧
    (∀ db : DB, Valid vals (clear db).data) := by
  refine ⟨?_, ?_, ?_, ?_, ?_, ?_, ?_, ?_⟩
  · intro db r cands hdb
    unfold create
    split
    · exact hdb
    · rename_i u hval
      split
      · exact hdb
      · rename_i id hid
        cases u
        exact Valid_mapSet vals db.data id r hdb hval
  · intro db items cands hdb
    unfold createMany
    split
    · exact hdb
    · rename_i hall
      have hitems := validateAll_none_forall vals items hall
      have hloop := createManyLoop_valid vals cands items 0 db.data hdb hitems
      split
      · rename_i ids d heq
        have : (createManyLoop cands 0 db.data items).2 = d := by rw [heq]
        exact this ▸ hloop
      · rename_i e d heq
        have : (createManyLoop cands 0 db.data items).2 = d := by rw [heq]
        exact this ▸ hloop
  · intro db id patch hdb
    unfold update
    split
    · exact hdb
    · rename_i existing hex
      dsimp only
      split
      · exact hdb
      · rename_i u hval
        cases u
        exact Valid_mapSet vals db.data id (merge existing patch) hdb hval
  · intro db updates hdb
    unfold updateMany
    split
    · exact hdb
    · rename_i hval
      exact updateManyApply_valid vals db.data updates db.data hdb
        (fun x hx => hx) hval
  · intro db id hdb
    unfold delete
    split
    · exact Valid_mapDelete vals db.data id hdb
    · exact hdb
  · intro db ids hdb
    unfold deleteMany
    split
    · exact hdb
    · exact Valid_foldl_mapDelete vals ids db.data hdb
  · intro db entries hdb
    simp only [dbImport]
    split
    · exact hdb
    · refine Valid_foldl_mapSet vals _ [] (Valid_nil vals) ?_
      intro kv hkv
      exact except_unit_isOk _ ((List.mem_filter.mp hkv).2)
  · intro db
    exact Valid_nil vals

/-- Witness for C9: the invariant at the concrete two-record store survives
a concrete `create` and a concrete `delete`. -/
theorem invariant_preserved_witness :
    Valid valsW (create valsW candsW dbTwoW recW).2.data ∧
    Valid valsW (delete dbTwoW "k1").2.data :=
  ⟨(invariant_preserved valsW).1 dbTwoW recW candsW ⟨by decide, by decide⟩,
   (invariant_preserved valsW).2.2.2.2.1 dbTwoW "k1" ⟨by decide, by decide⟩⟩

/-- Witness for C10: importing the duplicate-id blob succeeds, keeps the
record of the last occurrence, and yields fewer records than entries. -/
theorem import_duplicates_witness :
    (dbImport none dbW entriesDupW).1 = .ok () ∧
    mapGet (dbImport none dbW entriesDupW).2.data "k" = some [("x", .vNum 2)] ∧
    (dbImport none dbW entriesDupW).2.data.length < entriesDupW.length :=
  ⟨(import_duplicates_last_wins none dbW entriesDupW (fun kv _ => rfl)).1,
   by rw [(import_duplicates_last_wins none dbW entriesDupW (fun kv _ => rfl)).2.1 "k"]; rfl,
   by decide⟩

end MxbeDb

